import Mathlib

namespace IrisChat

/-! Shallow embedding of the chat client's connection-lifecycle and
message-normalization core: the auth socket module (resolveBaseUrl,
buildWebSocketUrl, connectAuthSocket) and the ChatRoom component
(extractString, deriveTimestamp, tryParseJson, parseChatPayload and the
batch branch of handleMessage).  JavaScript strings are modelled as Lean
strings, property bags as association lists, machine time as Int epoch
milliseconds, and the host-supplied pieces (Date parsing, crypto ids,
clocks) as an explicit environment record. -/

/-- Whitespace class used by the JavaScript string trim and by the regex
class backslash-s: space, tab, newline, carriage return, vertical tab and
form feed (the Unicode space separators of the full JS class are not
modelled; no claim exercises them). -/
def jsWhitespace (c : Char) : Bool :=
  c == ' ' || c == '\t' || c == '\n' || c == '\r' || c == '\x0b' || c == '\x0c'

/-- Trim on character lists: drop whitespace from both ends. -/
def jsTrimL (l : List Char) : List Char :=
  ((l.dropWhile jsWhitespace).reverse.dropWhile jsWhitespace).reverse

/-- Model of the JavaScript String.prototype.trim. -/
def jsTrim (s : String) : String :=
  ⟨jsTrimL s.data⟩

/-- Opening brace character, written by code so that no brace appears in a
string literal. -/
def braceOpen : Char := Char.ofNat 123

/-- Closing brace character. -/
def braceClose : Char := Char.ofNat 125

/-- Single quote character. -/
def singleQuote : Char := Char.ofNat 39

/-- Double quote character. -/
def doubleQuote : Char := Char.ofNat 34

/-- JSON-like values as produced by JSON.parse.  Numbers keep their source
lexeme: the client never computes with message numbers (it only checks the
typeof of one field), so the lexeme is enough and avoids floating point. -/
inductive Jx where
  | null : Jx
  | bool (b : Bool) : Jx
  | num (lexeme : String) : Jx
  | str (s : String) : Jx
  | arr (items : List Jx) : Jx
  | obj (fields : List (String × Jx)) : Jx
deriving Repr

/-- Property read on a parsed value, modelling the JavaScript member access
object.key: on an object literal with duplicate keys JSON.parse keeps the
last occurrence, hence the reverse find; on any non-object value the access
yields undefined (none).  Access on null throws in JavaScript and is handled
at the call sites that can receive null. -/
def objGet : Jx → String → Option Jx
  | Jx.obj fields, k => (fields.reverse.find? (fun kv => kv.1 == k)).map (·.2)
  | _, _ => none

/-- True for values the source accepts with a truthy typeof-object test:
objects and arrays; null is falsy. -/
def isObjectLike : Jx → Bool
  | Jx.obj _ => true
  | Jx.arr _ => true
  | _ => false

/-- True exactly on the JSON null value. -/
def isNullJx : Jx → Bool
  | Jx.null => true
  | _ => false

/-- Nullish member access, modelling object.key followed by the
double-question-mark operator: a present null counts as absent. -/
def nullishGet (p : Jx) (k : String) : Option Jx :=
  match objGet p k with
  | some Jx.null => none
  | some v => some v
  | none => none

/-- Model of the source's extractString helper: a value contributes a string
only when it is a string whose trim is non-empty, and the trimmed form is
returned. -/
def extractString : Jx → Option String
  | Jx.str s =>
      let t := jsTrim s
      if t = "" then none else some t
  | _ => none

/-- extractString lifted to an optional value, modelling the application to
a possibly-undefined property. -/
def extractStringOpt (v : Option Jx) : Option String :=
  v.bind extractString

/-! JSON text parser modelling JSON.parse as used by tryParseJson.  The
parser is fuel-bounded recursive descent; the fuel is instantiated with the
input length plus one, which dominates the nesting depth.  Escape handling
covers the common single-character escapes and the four-hex-digit form
without surrogate pairing; number lexemes are collected without full grammar
validation.  These approximations are noted because no claim depends on
them. -/

/-- Skip JSON whitespace. -/
def skipWs (l : List Char) : List Char :=
  l.dropWhile jsWhitespace

/-- Hex digit test. -/
def isHexDigit (c : Char) : Bool :=
  (('0' ≤ c) && (c ≤ '9')) || (('A' ≤ c) && (c ≤ 'F')) || (('a' ≤ c) && (c ≤ 'f'))

/-- Hex digit value (zero on non-hex input). -/
def hexDigitVal (c : Char) : Nat :=
  if ('0' ≤ c) && (c ≤ '9') then c.toNat - 48
  else if ('A' ≤ c) && (c ≤ 'F') then c.toNat - 55
  else if ('a' ≤ c) && (c ≤ 'f') then c.toNat - 87
  else 0

/-- Parse the body of a JSON string after the opening quote, returning the
decoded characters and the rest of the input. -/
def parseStrBody : List Char → Option (List Char × List Char)
  | [] => none
  | c :: r =>
    if c = doubleQuote then some ([], r)
    else if c = '\\' then
      match r with
      | 'u' :: h1 :: h2 :: h3 :: h4 :: r4 =>
        if isHexDigit h1 && isHexDigit h2 && isHexDigit h3 && isHexDigit h4 then
          (parseStrBody r4).map (fun br =>
            (Char.ofNat (((hexDigitVal h1 * 16 + hexDigitVal h2) * 16 +
              hexDigitVal h3) * 16 + hexDigitVal h4) :: br.1, br.2))
        else none
      | e :: r1 =>
        let esc : Option Char :=
          if e = doubleQuote then some doubleQuote
          else if e = '\\' then some '\\'
          else if e = '/' then some '/'
          else if e = 'n' then some '\n'
          else if e = 't' then some '\t'
          else if e = 'r' then some '\r'
          else if e = 'b' then some '\x08'
          else if e = 'f' then some '\x0c'
          else none
        match esc with
        | some ch => (parseStrBody r1).map (fun br => (ch :: br.1, br.2))
        | none => none
      | [] => none
    else if c.toNat < 32 then none
    else (parseStrBody r).map (fun br => (c :: br.1, br.2))

/-- Characters that may occur in a number lexeme. -/
def numChar (c : Char) : Bool :=
  c.isDigit || c == '-' || c == '+' || c == '.' || c == 'e' || c == 'E'

/-- Collect a number lexeme; fails when empty or not starting with a minus
sign or a digit. -/
def parseNumLexeme (l : List Char) : Option (Jx × List Char) :=
  let lex := l.takeWhile numChar
  let rest := l.drop lex.length
  match lex with
  | [] => none
  | c :: _ => if c = '-' || c.isDigit then some (Jx.num ⟨lex⟩, rest) else none

/-- Check that the input starts with the given literal characters and return
the remainder. -/
def expectLit : List Char → List Char → Option (List Char)
  | [], rest => some rest
  | c :: cs, d :: rest => if c = d then expectLit cs rest else none
  | _ :: _, [] => none

mutual

/-- Parse one JSON value (fuel-bounded). -/
def parseValue : Nat → List Char → Option (Jx × List Char)
  | 0, _ => none
  | fuel + 1, l =>
    match skipWs l with
    | [] => none
    | c :: rest =>
      if c = braceOpen then parseObjFields fuel rest
      else if c = '[' then parseArrItems fuel rest
      else if c = doubleQuote then
        (parseStrBody rest).map (fun br => (Jx.str ⟨br.1⟩, br.2))
      else if c = 't' then (expectLit ['r', 'u', 'e'] rest).map (Jx.bool true, ·)
      else if c = 'f' then (expectLit ['a', 'l', 's', 'e'] rest).map (Jx.bool false, ·)
      else if c = 'n' then (expectLit ['u', 'l', 'l'] rest).map (Jx.null, ·)
      else parseNumLexeme (c :: rest)

/-- Parse the members of an object after the opening brace. -/
def parseObjFields : Nat → List Char → Option (Jx × List Char)
  | 0, _ => none
  | fuel + 1, l =>
    match skipWs l with
    | [] => none
    | c :: rest =>
      if c = braceClose then some (Jx.obj [], rest)
      else if c = doubleQuote then
        match parseStrBody rest with
        | none => none
        | some (key, afterKey) =>
          match skipWs afterKey with
          | ':' :: afterColon =>
            match parseValue fuel afterColon with
            | none => none
            | some (v, afterVal) => parseObjMore fuel afterVal [(⟨key⟩, v)]
          | _ => none
      else none

/-- Parse the continuation of an object member list: either a comma and a
further member or the closing brace.  Members accumulate in source order. -/
def parseObjMore : Nat → List Char → List (String × Jx) → Option (Jx × List Char)
  | 0, _, _ => none
  | fuel + 1, l, acc =>
    match skipWs l with
    | ',' :: rest =>
      (match skipWs rest with
       | c :: rest1 =>
         if c = doubleQuote then
           match parseStrBody rest1 with
           | none => none
           | some (key, afterKey) =>
             match skipWs afterKey with
             | ':' :: afterColon =>
               match parseValue fuel afterColon with
               | none => none
               | some (v, afterVal) => parseObjMore fuel afterVal (acc ++ [(⟨key⟩, v)])
             | _ => none
         else none
       | [] => none)
    | c :: rest =>
      if c = braceClose then some (Jx.obj acc, rest) else none
    | [] => none

/-- Parse the items of an array after the opening bracket. -/
def parseArrItems : Nat → List Char → Option (Jx × List Char)
  | 0, _ => none
  | fuel + 1, l =>
    match skipWs l with
    | ']' :: rest => some (Jx.arr [], rest)
    | _ =>
      match parseValue fuel l with
      | none => none
      | some (v, afterVal) => parseArrMore fuel afterVal [v]

/-- Parse the continuation of an array item list. -/
def parseArrMore : Nat → List Char → List Jx → Option (Jx × List Char)
  | 0, _, _ => none
  | fuel + 1, l, acc =>
    match skipWs l with
    | ',' :: rest =>
      (match parseValue fuel rest with
       | none => none
       | some (v, afterVal) => parseArrMore fuel afterVal (acc ++ [v]))
    | ']' :: rest => some (Jx.arr acc, rest)
    | _ => none

end

/-- Model of JSON.parse on a whole text: the parse must consume everything
up to trailing whitespace. -/
def parseJsonText (s : String) : Option Jx :=
  match parseValue (s.data.length + 1) s.data with
  | some (v, rest) => if skipWs rest = [] then some v else none
  | none => none

/-- Replace every occurrence of one character by another (the source's
single-character global regex replaces). -/
def replaceAllChar (s : String) (from_ to_ : Char) : String :=
  ⟨s.data.map (fun c => if c = from_ then to_ else c)⟩

/-- Gate of tryParseJson: the trimmed text must start with an opening brace
and end with a closing brace. -/
def braceGate (t : String) : Bool :=
  (t.data.head? == some braceOpen) && (t.data.getLast? == some braceClose)

/-- Model of the source's tryParseJson: trim, check the brace gate, attempt
a strict JSON parse, and on failure retry after globally replacing single
quotes by double quotes; a successful parse is kept only when the result is
truthy and of object type. -/
def tryParseJson (payload : String) : Option Jx :=
  let t := jsTrim payload
  if braceGate t then
    match parseJsonText t with
    | some v => if isObjectLike v then some v else none
    | none =>
      match parseJsonText (replaceAllChar t singleQuote doubleQuote) with
      | some v => if isObjectLike v then some v else none
      | none => none
  else none

/-! Host environment: the pieces of behaviour the browser supplies.  Date
parsing by the Date constructor is host defined, crypto.randomUUID is
nondeterministic, and the clock advances; all three enter the embedding as
explicit data.  One freshId per normalization call is enough because no
claim compares two synthesized identifiers. -/

structure HostEnv where
  /-- Model of the Date constructor on a string followed by the getTime
  NaN check: some epoch milliseconds when the host can parse the text. -/
  parseDate : String → Option Int
  /-- Model of the Date constructor with no argument (current time). -/
  now : Int
  /-- Model of the randomId helper built on crypto.randomUUID. -/
  freshId : String

/-- Replace the first whitespace run by a capital T, modelling the
non-global regex replace of backslash-s-plus in deriveTimestamp. -/
def replaceFirstWsRunL : List Char → List Char
  | [] => []
  | c :: r => if jsWhitespace c then 'T' :: r.dropWhile jsWhitespace else c :: replaceFirstWsRunL r

/-- String form of the first-whitespace-run replacement. -/
def replaceFirstWsRun (s : String) : String :=
  ⟨replaceFirstWsRunL s.data⟩

/-- The candidate list deriveTimestamp builds for a trimmed non-empty
timestamp source: the text, its slash-to-hyphen form, and for each a
T-separated variant and the same with a UTC marker appended. -/
def dateCandidates (t : String) : List String :=
  let sanitized := replaceAllChar t '/' '-'
  [t, sanitized].flatMap (fun candidate =>
    let tCandidate := replaceFirstWsRun candidate
    [candidate, tCandidate, tCandidate ++ "Z"])

/-- Model of the source's deriveTimestamp: no source or blank source gives
the current time with no label; otherwise the first host-parsable candidate
wins, and if every candidate fails the current time is used and the trimmed
source survives as the display label. -/
def deriveTimestamp (env : HostEnv) (value : Option String) : Int × Option String :=
  match value with
  | none => (env.now, none)
  | some v =>
    let t := jsTrim v
    if t = "" then (env.now, none)
    else
      match (dateCandidates t).findSome? env.parseDate with
      | some d => (d, none)
      | none => (env.now, some t)

/-! The trailing-clock regex of the defensive sender normalization:
caret, lazy dot-star group, optional whitespace, then one or two digits,
colon, two digits, an optional colon-two-digits, dollar.  The lazy group
means the leftmost split position wins; at a given position the optional
whitespace is tried consumed first.  The dot excludes line terminators. -/

/-- Dot character class of a JavaScript regex without the dotall flag
(U+2028 and U+2029 are not modelled). -/
def dotOk (c : Char) : Bool :=
  !(c == '\n' || c == '\r')

/-- Whole-list match of the clock token: one or two digits, a colon, two
digits, optionally a colon and two more digits. -/
def timePat : List Char → Bool
  | [a, b, c, d] => a.isDigit && b == ':' && c.isDigit && d.isDigit
  | [a, b, c, d, e] => a.isDigit && b.isDigit && c == ':' && d.isDigit && e.isDigit
  | [a, b, c, d, e, f, g] =>
      a.isDigit && b == ':' && c.isDigit && d.isDigit && e == ':' && f.isDigit && g.isDigit
  | [a, b, c, d, e, f, g, h] =>
      a.isDigit && b.isDigit && c == ':' && d.isDigit && e.isDigit && f == ':' && g.isDigit && h.isDigit
  | _ => false

/-- Search for the lazy split: at each position first try to consume one
whitespace character before the clock token, then the token directly, and
otherwise extend the (dot-only) name prefix by one character. -/
def senderSplitAux : List Char → List Char → Option (List Char × List Char)
  | _, [] => none
  | pre, c :: r2 =>
    if jsWhitespace c && timePat r2 then some (pre, r2)
    else if timePat (c :: r2) then some (pre, c :: r2)
    else if dotOk c then senderSplitAux (pre ++ [c]) r2
    else none

/-- Match of the trailing-clock regex on a sender string, returning the name
part and the time part. -/
def senderTimeSplit (s : String) : Option (String × String) :=
  (senderSplitAux [] s.data).map (fun pr => (⟨pr.1⟩, ⟨pr.2⟩))

/-- Truthiness of the optional label string in the source's
if-not-normalizedLabel test: undefined and the empty string are falsy. -/
def truthyLabel : Option String → Bool
  | none => false
  | some l => l != ""

/-- The defensive sender normalization shared verbatim by parseChatPayload
and the batch branch of handleMessage: on a trailing-clock match whose name
part trims non-empty, the trimmed name part replaces the sender and the
clock token becomes the label when none is set yet. -/
def applySenderSplit (sender : String) (label : Option String) : String × Option String :=
  match senderTimeSplit sender with
  | some (namePart, timePart) =>
    if jsTrim namePart != "" then
      (jsTrim namePart, if truthyLabel label then label else some timePart)
    else (sender, label)
  | none => (sender, label)

/-- ASCII lowercase map modelling toLowerCase as used on sender names
(non-ASCII simple case mappings are not modelled; no claim uses them). -/
def jsToLower (s : String) : String :=
  ⟨s.data.map Char.toLower⟩

/-! The delimited-text regex: caret, greedy dot-star group, one whitespace,
a colon, one whitespace, greedy dot-star group, dollar.  The greedy first
group selects the rightmost separator; both groups exclude line
terminators. -/

/-- All characters admissible in a dot-star group. -/
def dotAll (l : List Char) : Bool :=
  l.all dotOk

/-- Rightmost-separator search: prefer a split further right (the greedy
group one), else accept a whitespace-colon-whitespace separator here when
the remaining suffix is line-terminator free. -/
def delimAux : List Char → List Char → Option (List Char × List Char)
  | _, [] => none
  | pre, c1 :: rest =>
    match (if dotOk c1 then delimAux (pre ++ [c1]) rest else none) with
    | some m => some m
    | none =>
      match rest with
      | ':' :: c3 :: r4 =>
        if jsWhitespace c1 && jsWhitespace c3 && dotAll r4 then some (pre, r4) else none
      | _ => none

/-- Match of the delimited-text regex, returning the raw (untrimmed)
sender and body groups. -/
def delimSplit (s : String) : Option (String × String) :=
  (delimAux [] s.data).map (fun pr => (⟨pr.1⟩, ⟨pr.2⟩))

/-- The canonical message record produced by normalization. -/
structure AnalysisData where
  content : String
  reasoning : String
  level_of_danger : String
  model_prediction : Jx
  final_score : Jx
  grooming_style : String

structure ChatMessage where
  id : String
  username : String
  content : String
  timestamp : Int
  displayTimestamp : Option String
  isOwn : Bool
  isSystem : Bool
  analysis : Option AnalysisData

/-- Extraction of the optional safety-analysis block with defaulted
sub-fields, shared verbatim by both decode paths.  The final score keeps
its numeric lexeme (the source only checks its typeof). -/
def parseAnalysis (p : Jx) : Option AnalysisData :=
  match objGet p "analysis" with
  | some a =>
    if isObjectLike a then
      some { content := (extractStringOpt (objGet a "content")).getD ""
             reasoning := (extractStringOpt (objGet a "reasoning")).getD ""
             level_of_danger := (extractStringOpt (objGet a "level_of_danger")).getD "Unknown"
             model_prediction := (nullishGet a "model_prediction").getD (Jx.obj [])
             final_score := match objGet a "final_score" with
               | some (Jx.num lexeme) => Jx.num lexeme
               | _ => Jx.num "0"
             grooming_style := (extractStringOpt (objGet a "grooming_style")).getD "N/A" }
    else none
  | none => none

/-- JSON string escaping for the stringify model (covers the escapes the
client could ever feed back; other control characters pass through, an
approximation no claim exercises). -/
def escapeJsonL : List Char → List Char
  | [] => []
  | c :: r =>
    (if c = doubleQuote then ['\\', doubleQuote]
     else if c = '\\' then ['\\', '\\']
     else if c = '\n' then ['\\', 'n']
     else if c = '\t' then ['\\', 't']
     else if c = '\r' then ['\\', 'r']
     else [c]) ++ escapeJsonL r

/-- Quoted JSON string literal. -/
def quoteJson (s : String) : String :=
  ⟨doubleQuote :: (escapeJsonL s.data ++ [doubleQuote])⟩

/-- Comma join. -/
def joinComma (l : List String) : String :=
  String.intercalate "," l

mutual

/-- Model of JSON.stringify. -/
def jsonStringify : Jx → String
  | Jx.null => "null"
  | Jx.bool b => if b then "true" else "false"
  | Jx.num lexeme => lexeme
  | Jx.str s => quoteJson s
  | Jx.arr items => "[" ++ joinComma (jsonStringifyItems items) ++ "]"
  | Jx.obj fields =>
    ⟨braceOpen :: (joinComma (jsonStringifyFields fields)).data ++ [braceClose]⟩

/-- Stringify the items of an array. -/
def jsonStringifyItems : List Jx → List String
  | [] => []
  | v :: r => jsonStringify v :: jsonStringifyItems r

/-- Stringify the members of an object. -/
def jsonStringifyFields : List (String × Jx) → List String
  | [] => []
  | (k, v) :: r => (quoteJson k ++ ":" ++ jsonStringify v) :: jsonStringifyFields r

end

mutual

/-- Model of the JavaScript String coercion (number formatting is
approximated by the stored lexeme; arrays join their elements with commas,
nulls becoming empty). -/
def jsToString : Jx → String
  | Jx.str s => s
  | Jx.num lexeme => lexeme
  | Jx.bool b => if b then "true" else "false"
  | Jx.null => "null"
  | Jx.arr items => joinComma (jsToStringItems items)
  | Jx.obj _ => "[object Object]"

/-- Coerce the elements of an array. -/
def jsToStringItems : List Jx → List String
  | [] => []
  | v :: r => (if isNullJx v then "" else jsToString v) :: jsToStringItems r

end

/-- Sender chain of the single-entry decode: extractString of each of
userName, username, user in that order, coalescing the extracted values. -/
def singleSenderOpt (p : Jx) : Option String :=
  extractStringOpt (objGet p "userName") <|> extractStringOpt (objGet p "username") <|>
    extractStringOpt (objGet p "user")

/-- Body chain of the single-entry decode (before the raw-frame fallback). -/
def singleBodyOpt (p : Jx) : Option String :=
  extractStringOpt (objGet p "message") <|> extractStringOpt (objGet p "content") <|>
    extractStringOpt (objGet p "text")

/-- Timestamp-source chain of the single-entry decode. -/
def singleTsChain (p : Jx) : Option String :=
  extractStringOpt (objGet p "date_time") <|> extractStringOpt (objGet p "timestamp") <|>
    extractStringOpt (objGet p "time")

/-- Model of the source's parseChatPayload on one raw frame. -/
def parseChatPayload (env : HostEnv) (payload : String) (currentUser : String) : ChatMessage :=
  match tryParseJson payload with
  | some p =>
    let sender := (singleSenderOpt p).getD "System"
    let messageText := (singleBodyOpt p).getD payload
    let timestampSource := singleTsChain p
    let analysis := parseAnalysis p
    let dl := deriveTimestamp env timestampSource
    let nsl := applySenderSplit sender dl.2
    let isSystem := jsToLower sender == "system"
    { id := env.freshId
      username := nsl.1
      content := messageText
      timestamp := dl.1
      displayTimestamp := nsl.2
      isOwn := !isSystem && nsl.1 == currentUser
      isSystem := isSystem
      analysis := analysis }
  | none =>
    let m := delimSplit payload
    let sender := match m with | some g => jsTrim g.1 | none => "System"
    let content := match m with | some g => jsTrim g.2 | none => payload
    let isSystem := jsToLower sender == "system"
    { id := env.freshId
      username := sender
      content := content
      timestamp := env.now
      displayTimestamp := none
      isOwn := !isSystem && sender == currentUser
      isSystem := isSystem
      analysis := none }

/-- Sender chain of the batch decode: the raw values of userName, user,
username are coalesced nullishly first and extractString is applied to the
winner only. -/
def batchSenderOpt (item : Jx) : Option String :=
  (nullishGet item "userName" <|> nullishGet item "user" <|> nullishGet item "username").bind
    extractString

/-- Body chain of the batch decode: the raw values are coalesced nullishly
first and extractString is applied to the winner only. -/
def batchBodyOpt (item : Jx) : Option String :=
  (nullishGet item "message" <|> nullishGet item "content" <|> nullishGet item "text").bind
    extractString

/-- Raw body of the batch decode, with empty-string fallback. -/
def batchBodyRaw (item : Jx) : String :=
  (batchBodyOpt item).getD ""

/-- Batch body after the one-level unwrap of a structured body. -/
def batchBody (item : Jx) : String :=
  let raw := batchBodyRaw item
  match tryParseJson raw with
  | some inner =>
    (extractStringOpt (objGet inner "message") <|> extractStringOpt (objGet inner "content") <|>
      extractStringOpt (objGet inner "text") <|>
      extractStringOpt (objGet inner "userName")).getD (jsonStringify inner)
  | none => raw

/-- Timestamp-source chain of the batch decode (raw nullish coalescing
before extraction). -/
def batchTsChain (item : Jx) : Option String :=
  (nullishGet item "date_time" <|> nullishGet item "timestamp" <|> nullishGet item "time").bind
    extractString

/-- Model of the element mapper in the batch branch of handleMessage. -/
def decodeBatchItem (env : HostEnv) (item : Jx) (currentUser : String) : ChatMessage :=
  let sender := batchSenderOpt item |>.getD "System"
  let messageText := batchBody item
  let timestampSource := batchTsChain item
  let dl := deriveTimestamp env timestampSource
  let analysis := parseAnalysis item
  let nsl := applySenderSplit sender dl.2
  let isSystem := jsToLower nsl.1 == "system"
  { id := match nullishGet item "id" with | some v => jsToString v | none => env.freshId
    username := nsl.1
    content := messageText
    timestamp := dl.1
    displayTimestamp := nsl.2
    isOwn := !isSystem && nsl.1 == currentUser
    isSystem := isSystem
    analysis := analysis }

/-- Model of handleMessage's normalization of one frame: a parsed object
whose data field is an array is decoded as a batch and reversed; a null
element makes the JavaScript mapper throw, which the surrounding catch
turns into the single-entry fallback; everything else is a single entry.
The transcript bookkeeping around the parse (status lines) is outside the
normalization core. -/
def normalizeFrame (env : HostEnv) (frame : String) (currentUser : String) : List ChatMessage :=
  let trimmed := jsTrim frame
  match tryParseJson trimmed with
  | some parsed =>
    match objGet parsed "data" with
    | some (Jx.arr batch) =>
      if batch.any isNullJx then [parseChatPayload env frame currentUser]
      else (batch.map (fun item => decodeBatchItem env item currentUser)).reverse
    | _ => [parseChatPayload env frame currentUser]
  | none => [parseChatPayload env frame currentUser]

/-! Connection lifecycle of connectAuthSocket as an event-driven state
machine.  The state tracks the settled flag, whether the transient open,
error, close and abort listeners are still attached (cleanup detaches all
four together), and whether the timeout countdown is still pending
(cleanup clears it).  An event reaches its handler only while the
corresponding registration is alive; the handler bodies are transcribed
from the source.  Actions record every resolve or reject call made on the
promise executor. -/

inductive ConnEvent where
  | openEv : ConnEvent
  | errorEv : ConnEvent
  | closeEv (code : Nat) : ConnEvent
  | abortEv : ConnEvent
  | timeoutEv : ConnEvent

inductive ConnAction where
  | resolve : ConnAction
  | rejectError : ConnAction
  | rejectClose (code : Nat) : ConnAction
  | rejectAbort : ConnAction
  | rejectTimeout : ConnAction

structure ConnState where
  settled : Bool
  listeners : Bool
  timeoutActive : Bool

/-- State at the end of the executor body: unsettled, listeners attached,
timeout armed. -/
def connInit : ConnState := ⟨false, true, true⟩

/-- State after any settlement: the settled flag is raised and cleanup has
detached listeners and cleared the timeout. -/
def connSettled : ConnState := ⟨true, false, false⟩

/-- Model of rejectWithCleanup: a no-op when already settled, otherwise
settle, clean up, close the transport and reject once. -/
def rejectWithCleanup (s : ConnState) (a : ConnAction) : ConnState × List ConnAction :=
  if s.settled then (s, []) else (connSettled, [a])

/-- One transport or timer event.  handleOpen settles and resolves with no
settled guard of its own (it is unreachable after cleanup); handleClose
guards on the settled flag before delegating to rejectWithCleanup; the
timeout callback fires only while the countdown is pending. -/
def connStep (s : ConnState) (e : ConnEvent) : ConnState × List ConnAction :=
  match e with
  | ConnEvent.openEv => if s.listeners then (connSettled, [ConnAction.resolve]) else (s, [])
  | ConnEvent.errorEv => if s.listeners then rejectWithCleanup s ConnAction.rejectError else (s, [])
  | ConnEvent.closeEv c =>
    if s.listeners then
      (if s.settled then (s, []) else rejectWithCleanup s (ConnAction.rejectClose c))
    else (s, [])
  | ConnEvent.abortEv => if s.listeners then rejectWithCleanup s ConnAction.rejectAbort else (s, [])
  | ConnEvent.timeoutEv => if s.timeoutActive then rejectWithCleanup s ConnAction.rejectTimeout else (s, [])

/-- Run a sequence of events from a state, collecting the actions. -/
def connRunFrom (s : ConnState) : List ConnEvent → ConnState × List ConnAction
  | [] => (s, [])
  | e :: es =>
    let sa := connStep s e
    let rest := connRunFrom sa.1 es
    (rest.1, sa.2 ++ rest.2)

/-- Run a sequence of events on a fresh connection attempt. -/
def connRun (es : List ConnEvent) : ConnState × List ConnAction :=
  connRunFrom connInit es

/-! Pre-attachment frame buffering.  connectAuthSocket attaches a message
listener that pushes every raw frame onto the buffer carried by the socket
handle; the listener is never removed.  ChatRoom attaches its own message
listener and then drains and clears the buffer.  The observed list records
the frames the consumer's listener processes, in order. -/

structure BufState where
  buffer : List String
  observed : List String
  attached : Bool

/-- State right after the transport is created. -/
def bufInit : BufState := ⟨[], [], false⟩

/-- One raw frame arrives: the auth-socket listener appends it to the
buffer, and the consumer's listener (when attached) processes it. -/
def frameArrive (s : BufState) (f : String) : BufState :=
  { buffer := s.buffer ++ [f]
    observed := if s.attached then s.observed ++ [f] else s.observed
    attached := s.attached }

/-- A sequence of frames arrives in order. -/
def framesArrive (s : BufState) (fs : List String) : BufState :=
  fs.foldl frameArrive s

/-- The consumer attaches its message listener. -/
def attachConsumer (s : BufState) : BufState :=
  { s with attached := true }

/-- The consumer feeds every buffered frame to its own handler and clears
the buffer (the source skips the loop when the buffer is empty, with the
same result). -/
def drainBuffer (s : BufState) : BufState :=
  { buffer := [], observed := s.observed ++ s.buffer, attached := s.attached }

/-! Endpoint resolution and URL construction.  Modelled from the copy of
resolveBaseUrl that derives the endpoint from the page origin; the build
environment and the page location are explicit records. -/

structure ViteEnv where
  /-- VITE_WS_BASE_URL. -/
  wsBaseUrl : Option String
  /-- VITE_WS_PORT. -/
  wsPort : Option String
  /-- The DEV build flag. -/
  dev : Bool

structure PageLocation where
  protocol : String
  hostname : String
  port : String

/-- JavaScript truthiness of an optional string: undefined and the empty
string are falsy. -/
def truthyStr : Option String → Bool
  | none => false
  | some s => s != ""

/-- The replace of an optional trailing slash by nothing. -/
def stripTrailingSlash (s : String) : String :=
  match s.data.getLast? with
  | some '/' => ⟨s.data.dropLast⟩
  | _ => s

/-- Model of resolveBaseUrl: an explicit base override wins verbatim (one
trailing slash stripped); otherwise the base derives from the page origin
with the secure scheme on secure pages and a port that a dev build may
rewrite to 8000; without a window the localhost default applies. -/
def resolveBaseUrl (env : ViteEnv) (loc : Option PageLocation) : String :=
  if truthyStr env.wsBaseUrl then stripTrailingSlash (env.wsBaseUrl.getD "")
  else
    match loc with
    | some l =>
      let wsProtocol := if l.protocol = "https:" then "wss:" else "ws:"
      let useDevDefaultPort := env.dev && (!truthyStr env.wsPort || env.wsPort == some "auto")
      let resolvedPort :=
        if truthyStr env.wsPort then env.wsPort.getD ""
        else if useDevDefaultPort && l.port != "8000" then "8000"
        else l.port
      let portSegment := if resolvedPort != "" then ":" ++ resolvedPort else ""
      wsProtocol ++ "//" ++ l.hostname ++ portSegment
    | none => "ws://localhost:8000"

inductive AuthRoute where
  | login : AuthRoute
  | register : AuthRoute

/-- Model of getRoutePath. -/
def getRoutePath : AuthRoute → String
  | AuthRoute.login => "/ws/lounge/login"
  | AuthRoute.register => "/ws/lounge/register"

/-! URL construction.  The URL constructor, its searchParams serializer and
encodeURIComponent are platform code not present under src; they are
modelled from the spec at the level the spec uses them: percent-encoding of
the username over UTF-8 bytes, and parsing the query back.  The ctorOk flag
selects between the try branch (the form-urlencoded serializer of
searchParams.set, which keeps alphanumerics and asterisk hyphen dot
underscore and writes space as plus) and the catch branch
(encodeURIComponent, which keeps a slightly larger safe set and has no
special space rule). -/

/-- UTF-8 bytes of a code point (code points are below 0x110000). -/
def utf8Nat (n : Nat) : List Nat :=
  if n < 128 then [n]
  else if n < 2048 then [192 + n / 64, 128 + n % 64]
  else if n < 65536 then [224 + n / 4096, 128 + n / 64 % 64, 128 + n % 64]
  else [240 + n / 262144, 128 + n / 4096 % 64, 128 + n / 64 % 64, 128 + n % 64]

/-- UTF-8 bytes of a character. -/
def utf8Char (c : Char) : List Nat :=
  utf8Nat c.toNat

/-- UTF-8 bytes of a character list. -/
def utf8List : List Char → List Nat
  | [] => []
  | c :: r => utf8Char c ++ utf8List r

/-- Decode one UTF-8 sequence from a byte list (overlong and surrogate
checks are omitted: the decoder is only ever applied to output of the
encoder in the theorems, and a malformed suffix falls to the caller's
replacement path). -/
def utf8DecodeOne : List Nat → Option (Nat × List Nat)
  | [] => none
  | b0 :: r =>
    if b0 < 128 then some (b0, r)
    else if b0 < 192 then none
    else if b0 < 224 then
      match r with
      | b1 :: r1 =>
        if 128 ≤ b1 && b1 < 192 then some ((b0 - 192) * 64 + (b1 - 128), r1) else none
      | [] => none
    else if b0 < 240 then
      match r with
      | b1 :: b2 :: r2 =>
        if (128 ≤ b1 && b1 < 192) && (128 ≤ b2 && b2 < 192) then
          some ((b0 - 224) * 4096 + (b1 - 128) * 64 + (b2 - 128), r2)
        else none
      | _ => none
    else if b0 < 248 then
      match r with
      | b1 :: b2 :: b3 :: r3 =>
        if ((128 ≤ b1 && b1 < 192) && (128 ≤ b2 && b2 < 192)) && (128 ≤ b3 && b3 < 192) then
          some ((b0 - 240) * 262144 + (b1 - 128) * 4096 + (b2 - 128) * 64 + (b3 - 128), r3)
        else none
      | _ => none
    else none

/-- Decode a whole byte list to characters, emitting a replacement
character on malformed input (fuel-bounded; one byte is consumed per
step at least, so the byte count is enough fuel). -/
def decodeAllBytes : Nat → List Nat → List Char
  | 0, _ => []
  | fuel + 1, l =>
    if l = [] then []
    else
      match utf8DecodeOne l with
      | some (n, r) => Char.ofNat n :: decodeAllBytes fuel r
      | none => Char.ofNat 65533 :: decodeAllBytes fuel l.tail

/-- Uppercase hex digit of a value below sixteen. -/
def toHexDigit (n : Nat) : Char :=
  if n < 10 then Char.ofNat (48 + n) else Char.ofNat (55 + n)

/-- Percent escape of one byte. -/
def percentEncByte (b : Nat) : List Char :=
  ['%', toHexDigit (b / 16), toHexDigit (b % 16)]

/-- Percent escapes of a byte list. -/
def percentEnc (bs : List Nat) : List Char :=
  (bs.map percentEncByte).flatten

/-- Safe set of the form-urlencoded serializer. -/
def formSafe (c : Char) : Bool :=
  c.isAlphanum || c == '*' || c == '-' || c == '.' || c == '_'

/-- Safe set of encodeURIComponent. -/
def uriSafe (c : Char) : Bool :=
  c.isAlphanum || c == '!' || c == singleQuote || c == '(' || c == ')' || c == '*' ||
    c == '-' || c == '.' || c == '_' || c == '~'

/-- Form-urlencoded serialization of a value (space as plus). -/
def formEncodeL : List Char → List Char
  | [] => []
  | c :: r =>
    (if c = ' ' then ['+'] else if formSafe c then [c] else percentEnc (utf8Char c)) ++
      formEncodeL r

/-- String form of the form-urlencoded serializer. -/
def formEncode (s : String) : String :=
  ⟨formEncodeL s.data⟩

/-- encodeURIComponent on a character list. -/
def uriEncodeL : List Char → List Char
  | [] => []
  | c :: r => (if uriSafe c then [c] else percentEnc (utf8Char c)) ++ uriEncodeL r

/-- Model of encodeURIComponent. -/
def encodeURIComponent (s : String) : String :=
  ⟨uriEncodeL s.data⟩

/-- Form-urlencoded byte decoding: plus back to space, a percent escape
with two hex digits to its byte (a malformed escape stays literal), and
every other character to its UTF-8 bytes. -/
def toBytes : List Char → List Nat
  | [] => []
  | c :: h1 :: h2 :: r2 =>
    if c = '+' then 32 :: toBytes (h1 :: h2 :: r2)
    else if c = '%' && (isHexDigit h1 && isHexDigit h2) then
      (hexDigitVal h1 * 16 + hexDigitVal h2) :: toBytes r2
    else utf8Char c ++ toBytes (h1 :: h2 :: r2)
  | c :: r =>
    if c = '+' then 32 :: toBytes r
    else utf8Char c ++ toBytes r

/-- Form-urlencoded value decoding as URLSearchParams performs it. -/
def formDecode (s : String) : String :=
  let bs := toBytes s.data
  ⟨decodeAllBytes (bs.length + 1) bs⟩

/-- Model of buildWebSocketUrl.  The try branch appends the userName pair
through the searchParams serializer; the catch branch concatenates manually
with encodeURIComponent.  Both attach the query only for a non-empty
username.  URL normalizations that do not affect the query (default port
elision, path normalization) are not modelled. -/
def buildWebSocketUrl (env : ViteEnv) (loc : Option PageLocation) (route : AuthRoute)
    (username : String) (ctorOk : Bool) : String :=
  let base := resolveBaseUrl env loc
  let path := getRoutePath route
  if ctorOk then
    base ++ path ++ (if username != "" then "?userName=" ++ formEncode username else "")
  else
    base ++ path ++ (if username != "" then "?userName=" ++ encodeURIComponent username else "")

/-- Split a character list at the first occurrence of a character. -/
def splitFirstAt (c : Char) : List Char → Option (List Char × List Char)
  | [] => none
  | x :: r => if x = c then some ([], r) else (splitFirstAt c r).map (fun pr => (x :: pr.1, pr.2))

/-- Split a character list at every occurrence of a character. -/
def splitAllAt (c : Char) : List Char → List (List Char)
  | [] => [[]]
  | x :: r =>
    if x = c then [] :: splitAllAt c r
    else
      match splitAllAt c r with
      | h :: t => (x :: h) :: t
      | [] => [[x]]

/-- Modelled from the spec: parsing the constructed URL back and reading the
userName query parameter, as the URL and URLSearchParams classes would (the
part after the first question mark, split on ampersands, first pair named
userName, value form-urldecoded; a pair with no equals sign has an empty
value). -/
def parseUserNameParam (url : String) : Option String :=
  match splitFirstAt '?' url.data with
  | none => none
  | some (_, query) =>
    (splitAllAt '&' query).findSome? (fun kv =>
      match splitFirstAt '=' kv with
      | some (nm, value) =>
        if (⟨nm⟩ : String) = "userName" then some (formDecode ⟨value⟩) else none
      | none => if (⟨kv⟩ : String) = "userName" then some (formDecode "") else none)

/-! Theorems.  A fixed concrete host environment serves the closed
statements: every date parse fails, the clock reads zero, and the
synthesized identifier is the string F. -/

/-- Concrete host environment for closed statements. -/
def envF : HostEnv :=
  { parseDate := fun _ => none, now := 0, freshId := "F" }

/-- Unfolding of the byte decoding on a plus sign. -/
theorem toBytes_plus (r : List Char) : toBytes ('+' :: r) = 32 :: toBytes r := by
  match r with
  | [] => rfl
  | [x] => rfl
  | x :: y :: r2 => rfl

/-- Unfolding of the byte decoding on an ordinary character. -/
theorem toBytes_plain (c : Char) (r : List Char) (h1 : c ≠ '+') (h2 : c ≠ '%') :
    toBytes (c :: r) = utf8Char c ++ toBytes r := by
  match r with
  | [] => simp [toBytes, h1]
  | [x] => simp [toBytes, h1]
  | x :: y :: r2 => simp [toBytes, h1, h2]

/-- Unfolding of the byte decoding on a well-formed percent escape. -/
theorem toBytes_pct (h1 h2 : Char) (r2 : List Char)
    (hh : (isHexDigit h1 && isHexDigit h2) = true) :
    toBytes ('%' :: h1 :: h2 :: r2) = (hexDigitVal h1 * 16 + hexDigitVal h2) :: toBytes r2 := by
  simp [toBytes, hh]


/-- From the initial state every event settles the attempt with exactly one
promise action. -/
theorem connStep_from_init (e : ConnEvent) :
    (connStep connInit e).1 = connSettled ∧ (connStep connInit e).2.length = 1 := by
  cases e <;> simp [connStep, connInit, connSettled, rejectWithCleanup]

/-- After settlement every event is a strict no-op: same state, no promise
action. -/
theorem connStep_of_settled (e : ConnEvent) :
    connStep connSettled e = (connSettled, []) := by
  cases e <;> simp [connStep, connSettled, rejectWithCleanup]

/-- Runs from the settled state do nothing. -/
theorem connRunFrom_of_settled (es : List ConnEvent) :
    connRunFrom connSettled es = (connSettled, []) := by
  induction es with
  | nil => rfl
  | cons e es ih => simp [connRunFrom, connStep_of_settled, ih]

/-- Claim C1: over any sequence of transport events (open, error, close,
abort, timeout) a connection attempt resolves or rejects at most once, a
non-empty sequence settles it exactly once, and once settled every further
event neither settles again nor changes the state (no further teardown). -/
theorem claim_C1 (es : List ConnEvent) :
    (connRun es).2.length ≤ 1 ∧
    (es ≠ [] → (connRun es).2.length = 1) ∧
    (∀ e, (connRun es).1.settled = true → connStep (connRun es).1 e = ((connRun es).1, [])) := by
  cases es with
  | nil =>
    refine ⟨by simp [connRun, connRunFrom], by simp, ?_⟩
    intro e h
    simp [connRun, connRunFrom, connInit] at h
  | cons e es' =>
    have h1 := connStep_from_init e
    have hrun : connRun (e :: es') = (connSettled, (connStep connInit e).2) := by
      simp only [connRun, connRunFrom]
      rw [h1.1, connRunFrom_of_settled]
      simp
    refine ⟨?_, fun _ => ?_, ?_⟩
    · rw [hrun]; exact Nat.le_of_eq h1.2
    · rw [hrun]; exact h1.2
    · intro ev _
      rw [hrun]
      exact connStep_of_settled ev

/-- Witness for claim C1: the sequence open, error, timeout settles exactly
once, and a late close event is a no-op. -/
theorem claim_C1_witness :
    (connRun [ConnEvent.openEv, ConnEvent.errorEv, ConnEvent.timeoutEv]).2.length = 1 ∧
    connStep (connRun [ConnEvent.openEv, ConnEvent.errorEv, ConnEvent.timeoutEv]).1
        (ConnEvent.closeEv 1006) =
      ((connRun [ConnEvent.openEv, ConnEvent.errorEv, ConnEvent.timeoutEv]).1, []) := by
  have h := claim_C1 [ConnEvent.openEv, ConnEvent.errorEv, ConnEvent.timeoutEv]
  exact ⟨h.2.1 (by simp), h.2.2 (ConnEvent.closeEv 1006) (by rfl)⟩

/-- Frames arriving only extend the buffer. -/
theorem framesArrive_buffer (s : BufState) (fs : List String) :
    (framesArrive s fs).buffer = s.buffer ++ fs := by
  induction fs generalizing s with
  | nil => simp [framesArrive]
  | cons f fs ih =>
    simp [framesArrive] at ih ⊢
    rw [ih]
    simp [frameArrive]

/-- Frame arrival keeps the attachment flag. -/
theorem framesArrive_attached (s : BufState) (fs : List String) :
    (framesArrive s fs).attached = s.attached := by
  induction fs generalizing s with
  | nil => rfl
  | cons f fs ih =>
    simp [framesArrive] at ih ⊢
    rw [ih]
    simp [frameArrive]

/-- Before the consumer attaches, arrivals are not observed. -/
theorem framesArrive_observed_detached (s : BufState) (fs : List String)
    (h : s.attached = false) : (framesArrive s fs).observed = s.observed := by
  induction fs generalizing s with
  | nil => rfl
  | cons f fs ih =>
    simp [framesArrive] at ih ⊢
    rw [ih _ (by simp [frameArrive, h])]
    simp [frameArrive, h]

/-- After the consumer attaches, arrivals are observed in order. -/
theorem framesArrive_observed_attached (s : BufState) (fs : List String)
    (h : s.attached = true) : (framesArrive s fs).observed = s.observed ++ fs := by
  induction fs generalizing s with
  | nil => simp [framesArrive]
  | cons f fs ih =>
    simp [framesArrive] at ih ⊢
    rw [ih _ (by simp [frameArrive, h])]
    simp [frameArrive, h]

/-- Claim C2: every frame arriving between transport creation and consumer
attachment is appended in arrival order to the buffer; attaching, draining
the buffer and then processing live events observes the full frame sequence
in original arrival order with nothing lost; and the drain clears the
buffer. -/
theorem claim_C2 (pre live : List String) :
    (framesArrive bufInit pre).buffer = pre ∧
    (drainBuffer (attachConsumer (framesArrive bufInit pre))).buffer = [] ∧
    (framesArrive (drainBuffer (attachConsumer (framesArrive bufInit pre))) live).observed =
      pre ++ live := by
  have hbuf : (framesArrive bufInit pre).buffer = pre := by
    rw [framesArrive_buffer]; rfl
  have hatt : (framesArrive bufInit pre).attached = false := by
    rw [framesArrive_attached]; rfl
  have hobs : (framesArrive bufInit pre).observed = [] := by
    rw [framesArrive_observed_detached _ _ rfl]; rfl
  refine ⟨hbuf, rfl, ?_⟩
  rw [framesArrive_observed_attached _ _ (by simp [drainBuffer, attachConsumer])]
  simp [drainBuffer, attachConsumer, hobs, hbuf]

/-- Counterexample for claim C3: a batch element carrying both a user and a
username key decodes with sender alice inside the batch path (user is
preferred) but with sender bob under the single-entry rules (username is
preferred), so the sender key preference differs between the two paths. -/
theorem claim_C3_counterexample :
    (normalizeFrame envF
        "\x7b\"data\":[\x7b\"user\":\"alice\",\"username\":\"bob\",\"message\":\"hi\",\"id\":\"1\"\x7d]\x7d"
        "u").map ChatMessage.username = ["alice"] ∧
    (parseChatPayload envF
        "\x7b\"user\":\"alice\",\"username\":\"bob\",\"message\":\"hi\",\"id\":\"1\"\x7d"
        "u").username = "bob" := by
  exact ⟨rfl, rfl⟩

/-- Counterexample for claim C4: a batch frame whose array holds the JSON
null makes the element mapper throw in JavaScript, so the frame falls back
to single-entry decoding and the result is not the reversed list of decoded
elements (the fallback record carries the whole frame as its body, while
the decoded null element would carry an empty body). -/
theorem claim_C4_counterexample :
    tryParseJson (jsTrim "\x7b\"data\":[null]\x7d") =
      some (Jx.obj [("data", Jx.arr [Jx.null])]) ∧
    normalizeFrame envF "\x7b\"data\":[null]\x7d" "u" ≠
      ([Jx.null].map (fun item => decodeBatchItem envF item "u")).reverse := by
  refine ⟨rfl, ?_⟩
  have h1 : (normalizeFrame envF "\x7b\"data\":[null]\x7d" "u").map ChatMessage.content =
      ["\x7b\"data\":[null]\x7d"] := rfl
  have h2 : (([Jx.null].map (fun item => decodeBatchItem envF item "u")).reverse).map
      ChatMessage.content = [""] := rfl
  intro h
  rw [h, h2] at h1
  exact absurd h1 (by decide)

/-- Counterexample for claim C5: the sender 03:29 ends in a clock token and
no display label is set, yet normalization leaves the label unset (and the
sender unchanged), because the leading portion before the clock token is
empty: the label assignment only happens inside the non-empty-name
branch. -/
theorem claim_C5_counterexample :
    (parseChatPayload envF "\x7b\"userName\":\"03:29\",\"message\":\"m\"\x7d" "u").displayTimestamp
      = none ∧
    (parseChatPayload envF "\x7b\"userName\":\"03:29\",\"message\":\"m\"\x7d" "u").username
      = "03:29" := by
  exact ⟨rfl, rfl⟩

/-- Counterexample for claim C7: in a dev build with no configured
overrides, a page served from localhost port 3000 resolves to port 8000,
so the page's port is not preserved even though no explicit port override
is configured. -/
theorem claim_C7_counterexample :
    resolveBaseUrl ⟨none, none, true⟩ (some ⟨"http:", "localhost", "3000"⟩) =
      "ws://localhost:8000" ∧
    resolveBaseUrl ⟨none, none, true⟩ (some ⟨"http:", "localhost", "3000"⟩) ≠
      "ws://localhost:3000" := by
  have h : resolveBaseUrl ⟨none, none, true⟩ (some ⟨"http:", "localhost", "3000"⟩) =
      "ws://localhost:8000" := rfl
  exact ⟨h, by rw [h]; decide⟩

/-- Counterexample for claim C8: a structured single-entry payload carrying
the identifier 7 still gets the synthesized identifier (the single-entry
decode never reads the id field). -/
theorem claim_C8_counterexample :
    (parseChatPayload envF "\x7b\"id\":\"7\",\"userName\":\"a\",\"message\":\"hi\"\x7d" "u").id
      = "F" ∧
    (parseChatPayload envF "\x7b\"id\":\"7\",\"userName\":\"a\",\"message\":\"hi\"\x7d" "u").id
      ≠ "7" := by
  have h : (parseChatPayload envF "\x7b\"id\":\"7\",\"userName\":\"a\",\"message\":\"hi\"\x7d"
      "u").id = "F" := rfl
  exact ⟨h, by rw [h]; decide⟩

/-- Counterexample for claim C10: the frame a-tab-colon-tab-b has no
occurrence of the literal space-colon-space separator, yet the delimited
decode still splits it (the regex accepts any single whitespace character
around the colon), so the sender is a rather than System. -/
theorem claim_C10_counterexample :
    (parseChatPayload envF "a\t:\tb" "u").username = "a" ∧
    (parseChatPayload envF "a\t:\tb" "u").username ≠ "System" := by
  have h : (parseChatPayload envF "a\t:\tb" "u").username = "a" := rfl
  exact ⟨h, by rw [h]; decide⟩

/-- Claim C3 (amended): decoding a batch element agrees with decoding the
element alone under the single-entry rules whenever the two sender chains
and the two timestamp chains resolve identically, the sender carries no
trailing clock token, the two body chains resolve to the same text that is
not itself a structured payload, and no identifier is provided; outside
those hypotheses the paths differ (key preference, body fallback and
unwrapping, identifier treatment, system-flag derivation), as the
counterexample shows. -/
theorem claim_C3 (env : HostEnv) (payload : String) (p : Jx) (u s m : String)
    (hjson : tryParseJson payload = some p)
    (hbs : batchSenderOpt p = some s)
    (hss : singleSenderOpt p = some s)
    (hsplit : senderTimeSplit s = none)
    (hts : batchTsChain p = singleTsChain p)
    (hbm : batchBodyOpt p = some m)
    (hsm : singleBodyOpt p = some m)
    (hinner : tryParseJson m = none)
    (hid : objGet p "id" = none) :
    decodeBatchItem env p u = parseChatPayload env payload u := by
  simp [decodeBatchItem, parseChatPayload, hjson, hbs, hss, hts, hbm, hsm, hinner,
    batchBody, batchBodyRaw, applySenderSplit, hsplit, nullishGet, hid]

/-- Witness for claim C3: a plain element decodes identically on both
paths. -/
theorem claim_C3_witness :
    decodeBatchItem envF (Jx.obj [("userName", Jx.str "bob"), ("message", Jx.str "hi")]) "u" =
      parseChatPayload envF "\x7b\"userName\":\"bob\",\"message\":\"hi\"\x7d" "u" :=
  claim_C3 envF "\x7b\"userName\":\"bob\",\"message\":\"hi\"\x7d"
    (Jx.obj [("userName", Jx.str "bob"), ("message", Jx.str "hi")]) "u" "bob" "hi"
    rfl rfl rfl rfl rfl rfl rfl rfl rfl

/-- Claim C4 (amended): for every frame that parses to an object with an
array-valued data field none of whose elements is null, normalization
returns the independently decoded records in the reverse of their delivery
order (position i of the output holds the decode of position length-1-i of
the delivery); a null element aborts the batch decode and the frame falls
back to single-entry decoding, as the counterexample shows. -/
theorem claim_C4 (env : HostEnv) (frame : String) (p : Jx) (batch : List Jx) (u : String)
    (hjson : tryParseJson (jsTrim frame) = some p)
    (hdata : objGet p "data" = some (Jx.arr batch))
    (hnonull : batch.any isNullJx = false) :
    normalizeFrame env frame u = (batch.map (fun item => decodeBatchItem env item u)).reverse ∧
    ∀ i : Nat, i < batch.length →
      (normalizeFrame env frame u)[i]? =
        (batch[batch.length - 1 - i]?).map (fun item => decodeBatchItem env item u) := by
  have h1 : normalizeFrame env frame u =
      (batch.map (fun item => decodeBatchItem env item u)).reverse := by
    simp [normalizeFrame, hjson, hdata, hnonull]
  refine ⟨h1, ?_⟩
  intro i hi
  rw [h1, List.getElem?_reverse (by simpa using hi)]
  simp [List.getElem?_map]

/-- Witness for claim C4: the two-element example batch delivered
newest-first decodes to records whose bodies read first then second. -/
theorem claim_C4_witness :
    (normalizeFrame envF
        "\x7b\"data\":[\x7b\"id\":\"2\",\"userName\":\"bob\",\"message\":\"second\"\x7d,\x7b\"id\":\"1\",\"userName\":\"bob\",\"message\":\"first\"\x7d]\x7d"
        "u").map ChatMessage.content = ["first", "second"] := by
  have h := claim_C4 envF
    "\x7b\"data\":[\x7b\"id\":\"2\",\"userName\":\"bob\",\"message\":\"second\"\x7d,\x7b\"id\":\"1\",\"userName\":\"bob\",\"message\":\"first\"\x7d]\x7d"
    (Jx.obj [("data", Jx.arr
      [Jx.obj [("id", Jx.str "2"), ("userName", Jx.str "bob"), ("message", Jx.str "second")],
       Jx.obj [("id", Jx.str "1"), ("userName", Jx.str "bob"), ("message", Jx.str "first")]])])
    [Jx.obj [("id", Jx.str "2"), ("userName", Jx.str "bob"), ("message", Jx.str "second")],
     Jx.obj [("id", Jx.str "1"), ("userName", Jx.str "bob"), ("message", Jx.str "first")]]
    "u" rfl rfl rfl
  rw [h.1]
  rfl

/-- Claim C5 (amended): when the decoded sender ends in a trailing clock
token whose leading portion is non-empty after trimming, the trimmed
leading portion becomes the sender, and in that same case the clock token
becomes the display label whenever no label was set by timestamp
derivation; when the leading portion trims to empty neither sender nor
label changes, as the counterexample shows. -/
theorem claim_C5 (env : HostEnv) (payload : String) (p : Jx) (u s namePart timePart : String)
    (hjson : tryParseJson payload = some p)
    (hsender : singleSenderOpt p = some s)
    (hsplit : senderTimeSplit s = some (namePart, timePart))
    (hname : jsTrim namePart ≠ "") :
    (parseChatPayload env payload u).username = jsTrim namePart ∧
    ((deriveTimestamp env (singleTsChain p)).2 = none →
      (parseChatPayload env payload u).displayTimestamp = some timePart) := by
  have hb : (jsTrim namePart != "") = true := bne_iff_ne.mpr hname
  constructor
  · simp [parseChatPayload, hjson, hsender, applySenderSplit, hsplit, hb]
  · intro hl
    simp [parseChatPayload, hjson, hsender, applySenderSplit, hsplit, hb, hl, truthyLabel]

/-- Witness for claim C5: the spec's example sender with no timestamp field
yields sender frosti and display label 03:29. -/
theorem claim_C5_witness :
    (parseChatPayload envF "\x7b\"userName\":\"frosti03:29\",\"message\":\"m\"\x7d" "u").username
      = "frosti" ∧
    (parseChatPayload envF "\x7b\"userName\":\"frosti03:29\",\"message\":\"m\"\x7d"
      "u").displayTimestamp = some "03:29" := by
  have h := claim_C5 envF "\x7b\"userName\":\"frosti03:29\",\"message\":\"m\"\x7d"
    (Jx.obj [("userName", Jx.str "frosti03:29"), ("message", Jx.str "m")])
    "u" "frosti03:29" "frosti" "03:29" rfl rfl rfl (by decide)
  exact ⟨by rw [h.1]; rfl, h.2 rfl⟩

/-- Claim C7 (amended): with no base-URL override and a window present, the
endpoint derives from the page origin with the secure transport scheme
exactly on secure pages and the page's hostname; the page's port is
preserved when no port override is configured and the build is not a dev
build, while a dev build with no override substitutes port 8000 whenever
the page's port differs from 8000, as the counterexample shows.  A
configured non-empty port override is used verbatim as the port, the
special value auto included: the truthiness test on the override wins
before the dev-default computation can look at it, so the resolved base
then ends in colon-auto. -/
theorem claim_C7 :
    (∀ (env : ViteEnv) (l : PageLocation),
        truthyStr env.wsBaseUrl = false → truthyStr env.wsPort = false → env.dev = false →
        resolveBaseUrl env (some l) =
          (if l.protocol = "https:" then "wss:" else "ws:") ++ "//" ++ l.hostname ++
            (if l.port != "" then ":" ++ l.port else "")) ∧
    (∀ (env : ViteEnv) (l : PageLocation),
        truthyStr env.wsBaseUrl = false → truthyStr env.wsPort = false → env.dev = true →
        l.port ≠ "8000" →
        resolveBaseUrl env (some l) =
          (if l.protocol = "https:" then "wss:" else "ws:") ++ "//" ++ l.hostname ++ ":8000") ∧
    (∀ (env : ViteEnv) (l : PageLocation) (p : String),
        truthyStr env.wsBaseUrl = false → env.wsPort = some p → p ≠ "" →
        resolveBaseUrl env (some l) =
          (if l.protocol = "https:" then "wss:" else "ws:") ++ "//" ++ l.hostname ++ ":" ++ p) := by
  refine ⟨?_, ?_, ?_⟩
  · intro env l hbase hport hdev
    simp [resolveBaseUrl, hbase, hport, hdev]
  · intro env l hbase hport hdev hp8
    simp [resolveBaseUrl, hbase, hport, hdev, bne_iff_ne.mpr hp8]
  · intro env l p hbase hport hpne
    have htp : truthyStr (some p) = true := bne_iff_ne.mpr hpne
    simp [resolveBaseUrl, hbase, hport, htp, hpne, String.append_assoc]

/-- Witness for claim C7: a secure production page on port 3000 keeps its
port; a dev page on port 3000 is rewritten to 8000; the override auto is
taken verbatim, leaving a base ending in colon-auto. -/
theorem claim_C7_witness :
    resolveBaseUrl ⟨none, none, false⟩ (some ⟨"https:", "example.org", "3000"⟩) =
      "wss://example.org:3000" ∧
    resolveBaseUrl ⟨none, none, true⟩ (some ⟨"http:", "localhost", "3000"⟩) =
      "ws://localhost:8000" ∧
    resolveBaseUrl ⟨none, some "auto", true⟩ (some ⟨"http:", "localhost", "3000"⟩) =
      "ws://localhost:auto" := by
  refine ⟨?_, ?_, ?_⟩
  · have h := claim_C7.1 ⟨none, none, false⟩ ⟨"https:", "example.org", "3000"⟩ rfl rfl rfl
    rw [h]; rfl
  · have h := claim_C7.2.1 ⟨none, none, true⟩ ⟨"http:", "localhost", "3000"⟩ rfl rfl rfl
      (by decide)
    rw [h]; rfl
  · have h := claim_C7.2.2 ⟨none, some "auto", true⟩ ⟨"http:", "localhost", "3000"⟩ "auto"
      rfl rfl (by decide)
    rw [h]; rfl

/-- Claim C8 (amended): the batch decode uses a provided (non-null)
identifier, stringified, and synthesizes a fresh one only when none is
present; the single-entry decode always synthesizes a fresh identifier,
ignoring any provided one, as the counterexample shows. -/
theorem claim_C8 :
    (∀ (env : HostEnv) (item : Jx) (u : String) (v : Jx),
        nullishGet item "id" = some v → (decodeBatchItem env item u).id = jsToString v) ∧
    (∀ (env : HostEnv) (item : Jx) (u : String),
        nullishGet item "id" = none → (decodeBatchItem env item u).id = env.freshId) ∧
    (∀ (env : HostEnv) (payload u : String),
        (parseChatPayload env payload u).id = env.freshId) := by
  refine ⟨?_, ?_, ?_⟩
  · intro env item u v h
    simp [decodeBatchItem, h]
  · intro env item u h
    simp [decodeBatchItem, h]
  · intro env payload u
    cases htp : tryParseJson payload <;> simp [parseChatPayload, htp]

/-- Witness for claim C8: a provided identifier is used by the batch path
and a frame without structure gets the synthesized identifier. -/
theorem claim_C8_witness :
    (decodeBatchItem envF (Jx.obj [("id", Jx.str "7")]) "u").id = "7" ∧
    (parseChatPayload envF "hello" "u").id = "F" := by
  constructor
  · have h := claim_C8.1 envF (Jx.obj [("id", Jx.str "7")]) "u" (Jx.str "7") rfl
    rw [h]; rfl
  · exact claim_C8.2.2 envF "hello" "u"

/-- Claim C10 (amended): a raw frame is decoded as a structured object only
if its trimmed text starts with an opening brace and ends with a closing
brace; every other frame (arrays, numbers, quoted strings included)
bypasses structured parsing and is decoded by the delimited-text rules,
splitting at the last whitespace-colon-whitespace separator (any single
whitespace character on each side, both groups trimmed) and otherwise
yielding sender System with the whole frame as body; the separator is not
the literal space-colon-space, as the counterexample shows. -/
theorem claim_C10 :
    (∀ (s : String) (p : Jx), tryParseJson s = some p → braceGate (jsTrim s) = true) ∧
    (∀ (env : HostEnv) (s u : String), braceGate (jsTrim s) = false →
      tryParseJson s = none ∧
      (parseChatPayload env s u).analysis = none ∧
      (delimSplit s = none →
        (parseChatPayload env s u).username = "System" ∧
        (parseChatPayload env s u).content = s) ∧
      (∀ g1 g2, delimSplit s = some (g1, g2) →
        (parseChatPayload env s u).username = jsTrim g1 ∧
        (parseChatPayload env s u).content = jsTrim g2)) := by
  constructor
  · intro s p h
    cases hb : braceGate (jsTrim s) with
    | false => exfalso; simp [tryParseJson, hb] at h
    | true => rfl
  · intro env s u hg
    have ht : tryParseJson s = none := by simp [tryParseJson, hg]
    refine ⟨ht, ?_, ?_, ?_⟩
    · cases hd : delimSplit s <;> simp [parseChatPayload, ht, hd]
    · intro hd
      simp [parseChatPayload, ht, hd]
    · intro g1 g2 hd
      simp [parseChatPayload, ht, hd]

/-- Witness for claim C10: a valid JSON array frame bypasses structured
parsing and becomes a System message carrying the whole frame. -/
theorem claim_C10_witness :
    tryParseJson "[1, 2]" = none ∧
    (parseChatPayload envF "[1, 2]" "u").username = "System" ∧
    (parseChatPayload envF "[1, 2]" "u").content = "[1, 2]" := by
  have h := claim_C10.2 envF "[1, 2]" "u" rfl
  exact ⟨h.1, (h.2.2.1 rfl).1, (h.2.2.1 rfl).2⟩

/-- A prefix of a list that drops no leading whitespace drops none
either. -/
theorem prefix_dropWhile_eq_self {x y : List Char}
    (hx : x <+: y) (hy : y.dropWhile jsWhitespace = y) :
    x.dropWhile jsWhitespace = x := by
  cases x with
  | nil => rfl
  | cons c x' =>
    obtain ⟨t, rfl⟩ := hx
    rw [List.cons_append, List.dropWhile_cons] at hy
    rw [List.dropWhile_cons]
    by_cases h : jsWhitespace c
    · exfalso
      rw [if_pos h] at hy
      have hlen := congrArg List.length hy
      have hle := (List.dropWhile_sublist (l := x' ++ t) jsWhitespace).length_le
      rw [List.length_cons] at hlen
      omega
    · rw [if_neg h]

/-- The character-list trim written through rdropWhile. -/
theorem jsTrimL_eq_rdrop (l : List Char) :
    jsTrimL l = List.rdropWhile jsWhitespace (l.dropWhile jsWhitespace) := rfl

/-- Trimming is idempotent on character lists. -/
theorem jsTrimL_idem (l : List Char) : jsTrimL (jsTrimL l) = jsTrimL l := by
  rw [jsTrimL_eq_rdrop, jsTrimL_eq_rdrop]
  have hAself : (l.dropWhile jsWhitespace).dropWhile jsWhitespace = l.dropWhile jsWhitespace :=
    List.dropWhile_idempotent _ _
  have hprefix : List.rdropWhile jsWhitespace (l.dropWhile jsWhitespace) <+:
      l.dropWhile jsWhitespace := List.rdropWhile_prefix _ _
  have h1 : (List.rdropWhile jsWhitespace (l.dropWhile jsWhitespace)).dropWhile jsWhitespace =
      List.rdropWhile jsWhitespace (l.dropWhile jsWhitespace) :=
    prefix_dropWhile_eq_self hprefix hAself
  rw [h1, List.rdropWhile_idempotent]

/-- Trimming is idempotent. -/
theorem jsTrim_idem (s : String) : jsTrim (jsTrim s) = jsTrim s :=
  congrArg String.mk (jsTrimL_idem s.data)

/-- extractString yields a trimmed non-empty string. -/
theorem extractString_trimmed {v : Jx} {s : String} (h : extractString v = some s) :
    jsTrim s = s ∧ s ≠ "" := by
  cases v with
  | str s0 =>
    simp only [extractString] at h
    by_cases he : jsTrim s0 = ""
    · simp [he] at h
    · simp only [if_neg he, Option.some.injEq] at h
      subst h
      exact ⟨jsTrim_idem s0, he⟩
  | null => simp [extractString] at h
  | bool b => simp [extractString] at h
  | num lexeme => simp [extractString] at h
  | arr items => simp [extractString] at h
  | obj fields => simp [extractString] at h

/-- extractString on an optional value yields a trimmed non-empty string. -/
theorem extractStringOpt_trimmed {o : Option Jx} {s : String}
    (h : extractStringOpt o = some s) : jsTrim s = s ∧ s ≠ "" := by
  cases o with
  | none => simp [extractStringOpt] at h
  | some v => exact extractString_trimmed (by simpa [extractStringOpt] using h)

/-- An alternative of options that yields a value yields it from one of its
sides. -/
theorem optAlt_some {α : Type} {a b : Option α} {s : α} (h : (a <|> b) = some s) :
    a = some s ∨ b = some s := by
  cases a with
  | none => right; simpa using h
  | some x => left; simpa using h

/-- The single-entry timestamp chain yields a trimmed non-empty string. -/
theorem singleTsChain_trimmed {p : Jx} {s : String} (h : singleTsChain p = some s) :
    jsTrim s = s ∧ s ≠ "" := by
  unfold singleTsChain at h
  rcases optAlt_some h with h1 | h2
  · exact extractStringOpt_trimmed h1
  · rcases optAlt_some h2 with h3 | h4
    · exact extractStringOpt_trimmed h3
    · exact extractStringOpt_trimmed h4

/-- Claim C6: when the structured payload carries a timestamp source string
and every date-parse candidate fails in the host, the produced record's
event time is the current time and its display label is exactly that source
string; the source string is never discarded. -/
theorem claim_C6 (env : HostEnv) (payload : String) (p : Jx) (s u : String)
    (hjson : tryParseJson payload = some p)
    (hts : singleTsChain p = some s)
    (hfail : ∀ c ∈ dateCandidates s, env.parseDate c = none) :
    (parseChatPayload env payload u).timestamp = env.now ∧
    (parseChatPayload env payload u).displayTimestamp = some s := by
  obtain ⟨htrim, hne⟩ := singleTsChain_trimmed hts
  have hnone : (dateCandidates s).findSome? env.parseDate = none :=
    List.findSome?_eq_none_iff.mpr hfail
  have hderive : deriveTimestamp env (some s) = (env.now, some s) := by
    simp [deriveTimestamp, htrim, hne, hnone]
  have hlab : (s != "") = true := bne_iff_ne.mpr hne
  constructor
  · simp [parseChatPayload, hjson, hts, hderive]
  · cases hsp : senderTimeSplit ((singleSenderOpt p).getD "System") with
    | none => simp [parseChatPayload, hjson, hts, hderive, applySenderSplit, hsp]
    | some pr =>
      simp [parseChatPayload, hjson, hts, hderive, applySenderSplit, hsp, truthyLabel, hlab]
      split <;> rfl

/-- Witness for claim C6: an unparsable timestamp string keeps its text as
the display label while the event time falls back to the current clock. -/
theorem claim_C6_witness :
    (parseChatPayload envF
        "\x7b\"userName\":\"a\",\"message\":\"m\",\"date_time\":\"not-a-date\"\x7d"
        "u").timestamp = 0 ∧
    (parseChatPayload envF
        "\x7b\"userName\":\"a\",\"message\":\"m\",\"date_time\":\"not-a-date\"\x7d"
        "u").displayTimestamp = some "not-a-date" := by
  have h := claim_C6 envF
    "\x7b\"userName\":\"a\",\"message\":\"m\",\"date_time\":\"not-a-date\"\x7d"
    (Jx.obj [("userName", Jx.str "a"), ("message", Jx.str "m"),
      ("date_time", Jx.str "not-a-date")])
    "not-a-date" "u" rfl rfl (fun c _ => rfl)
  exact ⟨h.1, h.2⟩

/-- Code points are below the Unicode bound. -/
theorem char_toNat_lt (c : Char) : c.toNat < 1114112 := by
  have h := c.valid
  rcases h with h | h
  · show c.val.toNat < 1114112
    omega
  · exact h.2

/-- Rebuilding a character from its code point gives the character back. -/
theorem charOfNat_toNat (c : Char) : Char.ofNat c.toNat = c :=
  Char.ofNat_toNat c

/-- A string made from the data of a string is that string. -/
theorem stringMk_data (s : String) : (⟨s.data⟩ : String) = s := rfl

/-- Decoding an encoded code point yields the code point and the rest. -/
theorem utf8DecodeOne_encode (n : Nat) (rest : List Nat) (h : n < 1114112) :
    utf8DecodeOne (utf8Nat n ++ rest) = some (n, rest) := by
  by_cases h1 : n < 128
  · have e1 : utf8Nat n = [n] := by rw [utf8Nat, if_pos h1]
    rw [e1]
    show utf8DecodeOne (n :: rest) = some (n, rest)
    simp only [utf8DecodeOne]
    rw [if_pos h1]
  · by_cases h2 : n < 2048
    · have e1 : utf8Nat n = [192 + n / 64, 128 + n % 64] := by
        rw [utf8Nat, if_neg h1, if_pos h2]
      rw [e1]
      show utf8DecodeOne ((192 + n / 64) :: (128 + n % 64) :: rest) = some (n, rest)
      simp only [utf8DecodeOne]
      rw [if_neg (by omega), if_neg (by omega), if_pos (by omega : 192 + n / 64 < 224)]
      show (if (128 ≤ 128 + n % 64 && 128 + n % 64 < 192) = true then
          some ((192 + n / 64 - 192) * 64 + (128 + n % 64 - 128), rest) else none) =
        some (n, rest)
      rw [if_pos (by simp only [Bool.and_eq_true, decide_eq_true_eq]; omega)]
      have : (192 + n / 64 - 192) * 64 + (128 + n % 64 - 128) = n := by omega
      rw [this]
    · by_cases h3 : n < 65536
      · have e1 : utf8Nat n = [224 + n / 4096, 128 + n / 64 % 64, 128 + n % 64] := by
          rw [utf8Nat, if_neg h1, if_neg h2, if_pos h3]
        rw [e1]
        show utf8DecodeOne ((224 + n / 4096) :: (128 + n / 64 % 64) :: (128 + n % 64) :: rest) =
          some (n, rest)
        simp only [utf8DecodeOne]
        rw [if_neg (by omega), if_neg (by omega), if_neg (by omega),
          if_pos (by omega : 224 + n / 4096 < 240)]
        show (if ((128 ≤ 128 + n / 64 % 64 && 128 + n / 64 % 64 < 192) &&
            (128 ≤ 128 + n % 64 && 128 + n % 64 < 192)) = true then
            some ((224 + n / 4096 - 224) * 4096 + (128 + n / 64 % 64 - 128) * 64 +
              (128 + n % 64 - 128), rest) else none) = some (n, rest)
        rw [if_pos (by simp only [Bool.and_eq_true, decide_eq_true_eq]; omega)]
        have : (224 + n / 4096 - 224) * 4096 + (128 + n / 64 % 64 - 128) * 64 +
            (128 + n % 64 - 128) = n := by omega
        rw [this]
      · have e1 : utf8Nat n =
            [240 + n / 262144, 128 + n / 4096 % 64, 128 + n / 64 % 64, 128 + n % 64] := by
          rw [utf8Nat, if_neg h1, if_neg h2, if_neg h3]
        rw [e1]
        show utf8DecodeOne ((240 + n / 262144) :: (128 + n / 4096 % 64) ::
          (128 + n / 64 % 64) :: (128 + n % 64) :: rest) = some (n, rest)
        simp only [utf8DecodeOne]
        rw [if_neg (by omega), if_neg (by omega), if_neg (by omega), if_neg (by omega),
          if_pos (by omega : 240 + n / 262144 < 248)]
        show (if (((128 ≤ 128 + n / 4096 % 64 && 128 + n / 4096 % 64 < 192) &&
            (128 ≤ 128 + n / 64 % 64 && 128 + n / 64 % 64 < 192)) &&
            (128 ≤ 128 + n % 64 && 128 + n % 64 < 192)) = true then
            some ((240 + n / 262144 - 240) * 262144 + (128 + n / 4096 % 64 - 128) * 4096 +
              (128 + n / 64 % 64 - 128) * 64 + (128 + n % 64 - 128), rest) else none) =
          some (n, rest)
        rw [if_pos (by simp only [Bool.and_eq_true, decide_eq_true_eq]; omega)]
        have : (240 + n / 262144 - 240) * 262144 + (128 + n / 4096 % 64 - 128) * 4096 +
            (128 + n / 64 % 64 - 128) * 64 + (128 + n % 64 - 128) = n := by omega
        rw [this]

/-- The encoding of a character is never empty. -/
theorem utf8Char_ne_nil (c : Char) : utf8Char c ≠ [] := by
  unfold utf8Char utf8Nat
  split_ifs <;> simp

/-- Every byte of a character's encoding is a byte. -/
theorem utf8Char_all_lt (c : Char) : ∀ b ∈ utf8Char c, b < 256 := by
  have h := char_toNat_lt c
  unfold utf8Char utf8Nat
  split_ifs with h1 h2 h3 <;> intro b hb
  · simp at hb; omega
  · simp at hb; rcases hb with rfl | rfl <;> omega
  · simp at hb; rcases hb with rfl | rfl | rfl <;> omega
  · simp at hb; rcases hb with rfl | rfl | rfl | rfl <;> omega

/-- Decoding the encoding of a character list gives the list back, given
enough fuel. -/
theorem decodeAll_utf8List (cs : List Char) (fuel : Nat)
    (hf : (utf8List cs).length ≤ fuel) :
    decodeAllBytes fuel (utf8List cs) = cs := by
  induction cs generalizing fuel with
  | nil => cases fuel <;> rfl
  | cons c cs ih =>
    have hne : utf8Char c ≠ [] := utf8Char_ne_nil c
    have hlen1 : 1 ≤ (utf8Char c).length := by
      cases hc : utf8Char c with
      | nil => exact absurd hc hne
      | cons b bs => simp
    have hsum : (utf8List (c :: cs)).length = (utf8Char c).length + (utf8List cs).length := by
      simp only [utf8List, List.length_append]
    cases fuel with
    | zero => omega
    | succ f =>
      have hul : utf8List (c :: cs) = utf8Nat c.toNat ++ utf8List cs := rfl
      simp only [decodeAllBytes]
      rw [if_neg (by
        rw [hul]
        intro hcon
        exact hne (by simpa [utf8Char] using List.append_eq_nil.mp hcon |>.1))]
      rw [hul, utf8DecodeOne_encode c.toNat (utf8List cs) (char_toNat_lt c)]
      show Char.ofNat c.toNat :: decodeAllBytes f (utf8List cs) = c :: cs
      rw [charOfNat_toNat, ih f (by omega)]

/-- Hex digits of values below sixteen evaluate back to themselves. -/
theorem toHexDigit_spec (n : Nat) (h : n < 16) :
    isHexDigit (toHexDigit n) = true ∧ hexDigitVal (toHexDigit n) = n := by
  interval_cases n <;> exact ⟨by decide, by decide⟩

/-- Percent escapes decode back to their bytes. -/
theorem toBytes_percentEnc (bs : List Nat) (rest : List Char)
    (hb : ∀ b ∈ bs, b < 256) :
    toBytes (percentEnc bs ++ rest) = bs ++ toBytes rest := by
  induction bs with
  | nil => simp [percentEnc]
  | cons b bs ih =>
    have hblt := hb b (by simp)
    have s1 := toHexDigit_spec (b / 16) (by omega)
    have s2 := toHexDigit_spec (b % 16) (by omega)
    show toBytes ('%' :: toHexDigit (b / 16) :: toHexDigit (b % 16) ::
      (percentEnc bs ++ rest)) = b :: (bs ++ toBytes rest)
    rw [toBytes_pct _ _ _ (by rw [s1.1, s2.1]; rfl)]
    rw [s1.2, s2.2]
    have hbv : b / 16 * 16 + b % 16 = b := by omega
    rw [hbv, ih (fun x hx => hb x (List.mem_cons_of_mem _ hx))]

/-- The form serializer encodes to exactly the UTF-8 bytes. -/
theorem toBytes_formEncodeL (cs : List Char) :
    toBytes (formEncodeL cs) = utf8List cs := by
  induction cs with
  | nil => rfl
  | cons c cs ih =>
    show toBytes ((if c = ' ' then ['+'] else if formSafe c then [c]
      else percentEnc (utf8Char c)) ++ formEncodeL cs) = utf8Char c ++ utf8List cs
    by_cases hsp : c = ' '
    · subst hsp
      rw [if_pos rfl]
      show toBytes ('+' :: formEncodeL cs) = utf8Char ' ' ++ utf8List cs
      rw [toBytes_plus, ih]
      rfl
    · rw [if_neg hsp]
      by_cases hsafe : formSafe c
      · rw [if_pos hsafe]
        have hc1 : c ≠ '+' := fun h => by subst h; exact absurd hsafe (by decide)
        have hc2 : c ≠ '%' := fun h => by subst h; exact absurd hsafe (by decide)
        show toBytes (c :: formEncodeL cs) = utf8Char c ++ utf8List cs
        rw [toBytes_plain c _ hc1 hc2, ih]
      · rw [if_neg hsafe]
        rw [toBytes_percentEnc _ _ (utf8Char_all_lt c), ih]

/-- encodeURIComponent encodes to exactly the UTF-8 bytes. -/
theorem toBytes_uriEncodeL (cs : List Char) :
    toBytes (uriEncodeL cs) = utf8List cs := by
  induction cs with
  | nil => rfl
  | cons c cs ih =>
    show toBytes ((if uriSafe c then [c] else percentEnc (utf8Char c)) ++ uriEncodeL cs) =
      utf8Char c ++ utf8List cs
    by_cases hsafe : uriSafe c
    · rw [if_pos hsafe]
      have hc1 : c ≠ '+' := fun h => by subst h; exact absurd hsafe (by decide)
      have hc2 : c ≠ '%' := fun h => by subst h; exact absurd hsafe (by decide)
      show toBytes (c :: uriEncodeL cs) = utf8Char c ++ utf8List cs
      rw [toBytes_plain c _ hc1 hc2, ih]
    · rw [if_neg hsafe]
      rw [toBytes_percentEnc _ _ (utf8Char_all_lt c), ih]

/-- Round trip of the form serializer through the form decoder. -/
theorem formDecode_formEncode (s : String) : formDecode (formEncode s) = s := by
  show (⟨decodeAllBytes ((toBytes (formEncodeL s.data)).length + 1)
    (toBytes (formEncodeL s.data))⟩ : String) = s
  rw [toBytes_formEncodeL, decodeAll_utf8List s.data _ (by omega)]

/-- Round trip of encodeURIComponent through the form decoder. -/
theorem formDecode_uriEncode (s : String) : formDecode (encodeURIComponent s) = s := by
  show (⟨decodeAllBytes ((toBytes (uriEncodeL s.data)).length + 1)
    (toBytes (uriEncodeL s.data))⟩ : String) = s
  rw [toBytes_uriEncodeL, decodeAll_utf8List s.data _ (by omega)]

/-- Characters of a percent escape sequence. -/
theorem percentEnc_chars (bs : List Nat) (hb : ∀ b ∈ bs, b < 256) :
    ∀ x ∈ percentEnc bs, x = '%' ∨ isHexDigit x = true := by
  induction bs with
  | nil => simp [percentEnc]
  | cons b bs ih =>
    intro x hx
    have he : percentEnc (b :: bs) = percentEncByte b ++ percentEnc bs := by
      simp [percentEnc]
    rw [he] at hx
    rcases List.mem_append.mp hx with h | h
    · have hblt := hb b (by simp)
      have s1 := toHexDigit_spec (b / 16) (by omega)
      have s2 := toHexDigit_spec (b % 16) (by omega)
      simp [percentEncByte] at h
      rcases h with rfl | rfl | rfl
      · left; rfl
      · right; exact s1.1
      · right; exact s2.1
    · exact ih (fun y hy => hb y (by simp [hy])) x h

/-- Characters of a form-serialized value. -/
theorem formEncodeL_chars (cs : List Char) :
    ∀ x ∈ formEncodeL cs, formSafe x = true ∨ x = '+' ∨ x = '%' ∨ isHexDigit x = true := by
  induction cs with
  | nil => simp [formEncodeL]
  | cons c cs ih =>
    intro x hx
    simp only [formEncodeL] at hx
    rcases List.mem_append.mp hx with h | h
    · by_cases hsp : c = ' '
      · rw [if_pos hsp] at h
        simp at h
        subst h
        right; left; rfl
      · rw [if_neg hsp] at h
        by_cases hsafe : formSafe c
        · rw [if_pos hsafe] at h
          simp at h
          subst h
          left; exact hsafe
        · rw [if_neg hsafe] at h
          rcases percentEnc_chars _ (utf8Char_all_lt c) x h with h' | h'
          · right; right; left; exact h'
          · right; right; right; exact h'
    · exact ih x h

/-- Characters of an encodeURIComponent output. -/
theorem uriEncodeL_chars (cs : List Char) :
    ∀ x ∈ uriEncodeL cs, uriSafe x = true ∨ x = '%' ∨ isHexDigit x = true := by
  induction cs with
  | nil => simp [uriEncodeL]
  | cons c cs ih =>
    intro x hx
    simp only [uriEncodeL] at hx
    rcases List.mem_append.mp hx with h | h
    · by_cases hsafe : uriSafe c
      · rw [if_pos hsafe] at h
        simp at h
        subst h
        left; exact hsafe
      · rw [if_neg hsafe] at h
        rcases percentEnc_chars _ (utf8Char_all_lt c) x h with h' | h'
        · right; left; exact h'
        · right; right; exact h'
    · exact ih x h

/-- Splitting misses an absent character. -/
theorem splitFirstAt_not_mem (c : Char) (l : List Char) (h : c ∉ l) :
    splitFirstAt c l = none := by
  induction l with
  | nil => rfl
  | cons x r ih =>
    simp only [splitFirstAt]
    rw [if_neg (by intro hxc; subst hxc; exact h (List.mem_cons_self _ _))]
    rw [ih (fun hm => h (List.mem_cons_of_mem _ hm))]
    rfl

/-- Splitting at the first occurrence of a character. -/
theorem splitFirstAt_append (c : Char) (a b : List Char) (ha : c ∉ a) :
    splitFirstAt c (a ++ c :: b) = some (a, b) := by
  induction a with
  | nil => simp [splitFirstAt]
  | cons x a ih =>
    simp only [List.cons_append, splitFirstAt]
    rw [if_neg (by intro hxc; subst hxc; exact ha (List.mem_cons_self _ _))]
    show Option.map (fun pr => (x :: pr.1, pr.2)) (splitFirstAt c (a ++ c :: b)) =
      some (x :: a, b)
    rw [ih (fun hm => ha (List.mem_cons_of_mem _ hm))]
    rfl

/-- Splitting on an absent character keeps the list whole. -/
theorem splitAllAt_not_mem (c : Char) (l : List Char) (h : c ∉ l) :
    splitAllAt c l = [l] := by
  induction l with
  | nil => rfl
  | cons x r ih =>
    simp only [splitAllAt]
    rw [if_neg (by intro hxc; subst hxc; exact h (List.mem_cons_self _ _))]
    rw [ih (fun hm => h (List.mem_cons_of_mem _ hm))]

/-- findSome? over a one-element list evaluates the function there. -/
theorem findSome?_singleton {α β : Type} (f : α → Option β) (a : α) :
    List.findSome? f [a] = f a := by
  cases h : f a <;> simp [List.findSome?, h]

/-- A URL with no question mark carries no userName parameter. -/
theorem parseUserNameParam_none (url : String) (h : '?' ∉ url.data) :
    parseUserNameParam url = none := by
  unfold parseUserNameParam
  rw [splitFirstAt_not_mem _ _ h]

/-- Reading the userName value out of a query that is exactly the userName
pair. -/
theorem findSome?_userName (enc : String)
    (henc : ∀ x ∈ enc.data, x ≠ '&' ∧ x ≠ '=') :
    List.findSome? (fun kv =>
      match splitFirstAt '=' kv with
      | some (nm, value) =>
        if (⟨nm⟩ : String) = "userName" then some (formDecode ⟨value⟩) else none
      | none => if (⟨kv⟩ : String) = "userName" then some (formDecode "") else none)
      (splitAllAt '&' ("userName=".data ++ enc.data)) = some (formDecode enc) := by
  have hamp : '&' ∉ ("userName=".data ++ enc.data) := by
    intro hm
    rcases List.mem_append.mp hm with h | h
    · exact absurd h (by decide)
    · exact (henc _ h).1 rfl
  have e2 : ("userName=").data ++ enc.data = ("userName").data ++ '=' :: enc.data := rfl
  rw [splitAllAt_not_mem _ _ hamp, findSome?_singleton]
  show (match splitFirstAt '=' ("userName=".data ++ enc.data) with
    | some (nm, value) =>
      if (⟨nm⟩ : String) = "userName" then some (formDecode ⟨value⟩) else none
    | none =>
      if (⟨"userName=".data ++ enc.data⟩ : String) = "userName" then some (formDecode "")
      else none) = some (formDecode enc)
  rw [e2, splitFirstAt_append '=' ("userName").data enc.data (by decide)]
  rfl

/-- Reading the userName parameter back from a URL whose query is exactly
the userName pair. -/
theorem parseUserNameParam_of_data (url : String) (pre : List Char) (enc : String)
    (hurl : url.data = pre ++ '?' :: ("userName=".data ++ enc.data))
    (hq : '?' ∉ pre)
    (henc : ∀ x ∈ enc.data, x ≠ '&' ∧ x ≠ '=') :
    parseUserNameParam url = some (formDecode enc) := by
  unfold parseUserNameParam
  rw [hurl, splitFirstAt_append '?' pre _ hq]
  exact findSome?_userName enc henc

/-- Claim C9: for every username whose trimmed form is non-empty, including
usernames with reserved URL characters, parsing the constructed connection
URL back yields a userName query parameter equal to the trimmed username,
on both the URL-constructor branch and the manual-concatenation fallback;
when the trimmed form is empty the constructed URL carries no userName
parameter.  The base is assumed free of question marks and hash signs, as
every base the resolver produces in practice is. -/
theorem claim_C9 (env : ViteEnv) (loc : Option PageLocation) (route : AuthRoute)
    (username : String) (ctorOk : Bool)
    (hq : '?' ∉ (resolveBaseUrl env loc).data)
    (_hhash : (Char.ofNat 35) ∉ (resolveBaseUrl env loc).data) :
    (jsTrim username ≠ "" →
      parseUserNameParam (buildWebSocketUrl env loc route (jsTrim username) ctorOk) =
        some (jsTrim username)) ∧
    (jsTrim username = "" →
      parseUserNameParam (buildWebSocketUrl env loc route (jsTrim username) ctorOk) = none) := by
  have hpath : '?' ∉ (getRoutePath route).data := by cases route <;> decide
  have hqb : '?' ∉ (resolveBaseUrl env loc).data ++ (getRoutePath route).data := by
    intro hm
    rcases List.mem_append.mp hm with h | h
    · exact hq h
    · exact hpath h
  constructor
  · intro hne
    have hbne : (jsTrim username != "") = true := bne_iff_ne.mpr hne
    cases ctorOk with
    | true =>
      have hurl : (buildWebSocketUrl env loc route (jsTrim username) true).data =
          ((resolveBaseUrl env loc).data ++ (getRoutePath route).data) ++
            '?' :: ("userName=".data ++ (formEncode (jsTrim username)).data) := by
        show (resolveBaseUrl env loc ++ getRoutePath route ++
          (if (jsTrim username != "") = true then
            "?userName=" ++ formEncode (jsTrim username) else "")).data = _
        rw [if_pos hbne, String.data_append, String.data_append, String.data_append]
        rfl
      have henc2 : ∀ x ∈ (formEncode (jsTrim username)).data, x ≠ '&' ∧ x ≠ '=' := by
        intro x hx
        have hcl := formEncodeL_chars (jsTrim username).data x hx
        constructor <;> (rintro rfl; revert hcl; decide)
      rw [parseUserNameParam_of_data _ _ _ hurl hqb henc2, formDecode_formEncode]
    | false =>
      have hurl : (buildWebSocketUrl env loc route (jsTrim username) false).data =
          ((resolveBaseUrl env loc).data ++ (getRoutePath route).data) ++
            '?' :: ("userName=".data ++ (encodeURIComponent (jsTrim username)).data) := by
        show (resolveBaseUrl env loc ++ getRoutePath route ++
          (if (jsTrim username != "") = true then
            "?userName=" ++ encodeURIComponent (jsTrim username) else "")).data = _
        rw [if_pos hbne, String.data_append, String.data_append, String.data_append]
        rfl
      have henc2 : ∀ x ∈ (encodeURIComponent (jsTrim username)).data, x ≠ '&' ∧ x ≠ '=' := by
        intro x hx
        have hcl := uriEncodeL_chars (jsTrim username).data x hx
        constructor <;> (rintro rfl; revert hcl; decide)
      rw [parseUserNameParam_of_data _ _ _ hurl hqb henc2, formDecode_uriEncode]
  · intro hz
    have hbz : (jsTrim username != "") = false := by rw [hz]; rfl
    apply parseUserNameParam_none
    cases ctorOk with
    | true =>
      show '?' ∉ (resolveBaseUrl env loc ++ getRoutePath route ++
        (if (jsTrim username != "") = true then
          "?userName=" ++ formEncode (jsTrim username) else "")).data
      rw [if_neg (by simp [hbz]), String.data_append, String.data_append]
      intro hm
      rcases List.mem_append.mp hm with hm1 | hm1
      · rcases List.mem_append.mp hm1 with h | h
        · exact hq h
        · exact hpath h
      · simp at hm1
    | false =>
      show '?' ∉ (resolveBaseUrl env loc ++ getRoutePath route ++
        (if (jsTrim username != "") = true then
          "?userName=" ++ encodeURIComponent (jsTrim username) else "")).data
      rw [if_neg (by simp [hbz]), String.data_append, String.data_append]
      intro hm
      rcases List.mem_append.mp hm with hm1 | hm1
      · rcases List.mem_append.mp hm1 with h | h
        · exact hq h
        · exact hpath h
      · simp at hm1

/-- Witness for claim C9: a username full of reserved URL characters round
trips on the constructor branch, and a blank username yields no parameter
on the fallback branch. -/
theorem claim_C9_witness :
    parseUserNameParam
        (buildWebSocketUrl ⟨none, none, false⟩ (some ⟨"http:", "h", "80"⟩) AuthRoute.login
          (jsTrim "a b&c=d?e") true) = some "a b&c=d?e" ∧
    parseUserNameParam
        (buildWebSocketUrl ⟨none, none, false⟩ (some ⟨"http:", "h", "80"⟩) AuthRoute.login
          (jsTrim "  ") false) = none := by
  constructor
  · have h := (claim_C9 ⟨none, none, false⟩ (some ⟨"http:", "h", "80"⟩) AuthRoute.login
      "a b&c=d?e" true (by decide) (by decide)).1 (by decide)
    rw [h]; rfl
  · exact (claim_C9 ⟨none, none, false⟩ (some ⟨"http:", "h", "80"⟩) AuthRoute.login
      "  " false (by decide) (by decide)).2 rfl

end IrisChat
